import Mathlib

/-!
Shallow embedding of the YrthTeam data scripts.

The repository consists of five standalone Python scripts:
  * `Prediction_1755397003498.py` and `Prediction_1755397014428.py`
    ("Mode A"): fetch a draw history, concatenate the `number` fields
    into one digit string, run a numerology-style transform, and print
    `{next_issue_number, all_numbers, computed_result}`.
  * `WinLose_1755398394420.py`, `WinLose_1755398401488.py`,
    `WinLose_1755398410429.py` ("Mode B"): fetch a draw history and
    print `{"number": int(issues[0].get('number', 0))}`.

The HTTP fetch is external; the embedding starts from the parsed
response.  Python strings are modelled as `List Char`, Python values
appearing in the JSON records as `PyVal` (either an integer or a
string), Python exceptions as `PyError`, and the observable behaviour
of one invocation as `Outcome` (a printed result mapping, a printed
`{"error": ...}` mapping, or an unhandled exception / crash).
-/

deriving instance DecidableEq for Except

namespace DataScripts

/-- A JSON scalar as the scripts see it: an integer or a string. -/
inductive PyVal where
  | int (n : Int)
  | str (s : List Char)
deriving DecidableEq

/-- One draw record.  `number` is read with `.get('number', 0)` so it may
be absent; `issueNumber` is read with `x['issueNumber']` and is present
in every record the claims consider. -/
structure Issue where
  number : Option PyVal
  issueNumber : PyVal
deriving DecidableEq

/-- Unhandled Python exceptions the scripts can raise:
`IndexError` from string indexing, `ValueError` from `int(...)` or from
`max(...)` on an empty sequence. -/
inductive PyError where
  | indexError
  | valueError
deriving DecidableEq

/-- Observable behaviour of one script invocation after the fetch:
a printed result mapping, a printed `{"error": msg}` mapping, or an
unhandled exception (traceback, nothing printed by the script logic). -/
inductive Outcome (α : Type) where
  | ok (a : α)
  | errorMap (msg : List Char)
  | crash (e : PyError)
deriving DecidableEq

/-- `'0' <= c <= '9'` on code points, as Python's `int` accepts. -/
def isDigitChar (c : Char) : Bool := 48 ≤ c.toNat && c.toNat ≤ 57

/-- Value of a decimal digit character, `none` for a non-digit. -/
def charVal (c : Char) : Option Nat :=
  if isDigitChar c then some (c.toNat - 48) else none

/-- The decimal digit character for a digit value `d < 10`. -/
def digitChar (d : Nat) : Char := Char.ofNat (48 + d)

/-- Most-significant-first decimal digits of `n`; `[]` for `0`.
The first argument is fuel, always called with `fuel ≥ n`. -/
def natDigitsAux : Nat → Nat → List Nat
  | 0, _ => []
  | fuel + 1, n => if n = 0 then [] else natDigitsAux fuel (n / 10) ++ [n % 10]

/-- Most-significant-first decimal digits of `n`, with `[0]` for `0`
(the digit list of Python's `str(n)` for `n ≥ 0`). -/
def natToDigitList (n : Nat) : List Nat :=
  if n = 0 then [0] else natDigitsAux n n

/-- Characters of Python's `str(n)` for a natural `n`. -/
def natChars (n : Nat) : List Char := (natToDigitList n).map digitChar

/-- Characters of Python's `str(i)` for an integer `i`. -/
def pyStrInt (i : Int) : List Char :=
  if i < 0 then '-' :: natChars i.natAbs else natChars i.toNat

/-- Python `str(v)` of a record field value. -/
def pyStr (v : PyVal) : List Char :=
  match v with
  | .int n => pyStrInt n
  | .str s => s

/-- Accumulate the value of a most-significant-first digit-character
list (each character assumed to be a decimal digit). -/
def digitsVal (cs : List Char) : Nat :=
  cs.foldl (fun a c => 10 * a + (c.toNat - 48)) 0

/-- Value of a most-significant-first list of digit values (proof
companion of `digitsVal`). -/
def valMSB (l : List Nat) : Nat := l.foldl (fun a d => 10 * a + d) 0

/-- Parse a non-empty all-digit character list as a natural number;
`none` otherwise (Python `int` raising `ValueError`). -/
def parseNatChars (cs : List Char) : Option Nat :=
  if cs ≠ [] ∧ cs.all isDigitChar then some (digitsVal cs) else none

/-- Python `int(s)` on a string: an optional sign followed by at least
one decimal digit (whitespace and underscore forms do not occur in the
values these scripts handle). -/
def parseIntChars (cs : List Char) : Option Int :=
  match cs with
  | [] => none
  | c :: rest =>
    if c = '-' then (parseNatChars rest).map (fun n => -(n : Int))
    else if c = '+' then (parseNatChars rest).map (fun n => (n : Int))
    else (parseNatChars (c :: rest)).map (fun n => (n : Int))

/-- Python `int(v)` on a record field value; `none` models `ValueError`. -/
def pyInt (v : PyVal) : Option Int :=
  match v with
  | .int n => some n
  | .str s => parseIntChars s

/-- `sum(int(d) for d in str(total))` for a natural `total`. -/
def digitSum (n : Nat) : Nat := (natToDigitList n).sum

/-- The reduction loop `while total > 9: total = sum(int(d) for d in
str(total))` (lines 46–48 of `Prediction_1755397003498.py`). -/
def reduceTotal (n : Nat) : Nat :=
  if h : 9 < n then reduceTotal (digitSum n) else n
termination_by n
decreasing_by
  have aux : ∀ fuel m, (natDigitsAux fuel m).sum ≤ m := by
    intro fuel
    induction fuel with
    | zero => intro m; simp [natDigitsAux]
    | succ k ih =>
      intro m
      by_cases hm : m = 0
      · simp [natDigitsAux, hm]
      · have h1 := ih (m / 10)
        have h2 : 10 * (m / 10) + m % 10 = m := Nat.div_add_mod m 10
        simp only [natDigitsAux, hm, if_false, List.sum_append, List.sum_cons,
          List.sum_nil]
        omega
  have hn : n ≠ 0 := by omega
  obtain ⟨k, rfl⟩ : ∃ k, n = k + 1 := ⟨n - 1, by omega⟩
  have hstep : digitSum (k + 1) = (natDigitsAux k ((k + 1) / 10)).sum + (k + 1) % 10 := by
    simp [digitSum, natToDigitList, natDigitsAux, hn]
  have h1 := aux k ((k + 1) / 10)
  have h2 : 10 * ((k + 1) / 10) + (k + 1) % 10 = k + 1 := Nat.div_add_mod (k + 1) 10
  omega

/-- Python string indexing `s[i]` with negative-index support:
in range `[0, len)` or `[-len, 0)` it returns a character, otherwise it
raises `IndexError`. -/
def pyIdx (s : List Char) (i : Int) : Except PyError Char :=
  if 0 ≤ i then
    if i < (s.length : Int) then .ok (s.getD i.toNat 'x') else .error .indexError
  else
    if 0 ≤ (s.length : Int) + i then .ok (s.getD ((s.length : Int) + i).toNat 'x')
    else .error .indexError

/-- Python `int(c)` on a one-character string taken from the digit
string: the digit value, or `ValueError`. -/
def charIntExcept (c : Char) : Except PyError Nat :=
  match charVal c with
  | some d => .ok d
  | none => .error .valueError

def smallChars : List Char := "Small".toList
def bigChars : List Char := "Big".toList

/-- `size = "Small" if result_digit <= 4 else "Big"` (line 49). -/
def sizeStr (d : Nat) : List Char := if d ≤ 4 then smallChars else bigChars

/-- Lines 30–49 of `Prediction_1755397003498.py` (identically lines
40–56 of `Prediction_1755397014428.py`): the transform applied to the
concatenated digit string, producing the characters of
`f"{result_digit} {size}"`. -/
def digitLogic (s : List Char) : Except PyError (List Char) :=
  match pyIdx s 0 with
  | .error e => .error e
  | .ok c0 =>
  match charIntExcept c0 with
  | .error e => .error e
  | .ok first_num =>
  let pos_index : Int := (s.length : Int) - first_num
  match pyIdx s pos_index with
  | .error e => .error e
  | .ok cp =>
  match charIntExcept cp with
  | .error e => .error e
  | .ok digit_at_place =>
  let nd : Except PyError Nat :=
    if 0 ≤ pos_index - 1 then
      match pyIdx s (pos_index - 1) with
      | .error e => .error e
      | .ok cn => charIntExcept cn
    else .ok 0
  match nd with
  | .error e => .error e
  | .ok next_digit =>
  match pyIdx s (-1) with
  | .error e => .error e
  | .ok cl =>
  match charIntExcept cl with
  | .error e => .error e
  | .ok last_digit =>
  let total := (digit_at_place + next_digit) * last_digit
  let result_digit := reduceTotal total
  .ok (natChars result_digit ++ ' ' :: sizeStr result_digit)

/-- `''.join(str(item.get('number', 0)) for item in issues)`. -/
def allNumbersStr (issues : List Issue) : List Char :=
  (issues.map (fun it => pyStr (it.number.getD (PyVal.int 0)))).flatten

/-- Fold of `max(issues, key=lambda x: int(x['issueNumber']))` over the
tail, keeping the first element whose key is maximal, raising
`ValueError` when some key fails to parse. -/
def pyMaxByAux (best : Issue) (bkey : Int) : List Issue → Except PyError Issue
  | [] => .ok best
  | y :: ys =>
    match pyInt y.issueNumber with
    | none => .error .valueError
    | some ky => if bkey < ky then pyMaxByAux y ky ys else pyMaxByAux best bkey ys

/-- `max(issues, key=lambda x: int(x['issueNumber']))`; `ValueError` on
an empty sequence or an unparseable key. -/
def pyMaxBy (issues : List Issue) : Except PyError Issue :=
  match issues with
  | [] => .error .valueError
  | x :: xs =>
    match pyInt x.issueNumber with
    | none => .error .valueError
    | some kx => pyMaxByAux x kx xs

/-- Lines 23–24 of `Prediction_1755397003498.py` (lines 59–60 of the
other Mode A script): `str(int(highest_issue['issueNumber']) + 1)`. -/
def nextIssueStr (issues : List Issue) : Except PyError (List Char) :=
  match pyMaxBy issues with
  | .error e => .error e
  | .ok highest =>
    match pyInt highest.issueNumber with
    | none => .error .valueError
    | some hi => .ok (pyStrInt (hi + 1))

/-- The Mode A result mapping. -/
structure AResult where
  next_issue_number : List Char
  all_numbers : Int
  computed_result : List Char
deriving DecidableEq

/-- The Mode B result mapping. -/
structure BResult where
  number : Int
deriving DecidableEq

/-- `Prediction_1755397003498.py`, lines 19–60: next issue number first,
then the digit transform, then the result mapping (whose construction
evaluates `int(all_numbers_str)`). -/
def modeA1 (issues : List Issue) : Outcome AResult :=
  match nextIssueStr issues with
  | .error e => .crash e
  | .ok nis =>
  match digitLogic (allNumbersStr issues) with
  | .error e => .crash e
  | .ok cr =>
  match parseIntChars (allNumbersStr issues) with
  | none => .crash .valueError
  | some alln => .ok ⟨nis, alln, cr⟩

/-- `Prediction_1755397014428.py`, lines 33–71: digit transform first,
then the next issue number, then the result mapping. -/
def modeA2 (issues : List Issue) : Outcome AResult :=
  match digitLogic (allNumbersStr issues) with
  | .error e => .crash e
  | .ok cr =>
  match nextIssueStr issues with
  | .error e => .crash e
  | .ok nis =>
  match parseIntChars (allNumbersStr issues) with
  | none => .crash .valueError
  | some alln => .ok ⟨nis, alln, cr⟩

def noIssuesMsg : List Char := "No issues available.".toList
def noDataMsg : List Char := "No data available.".toList

/-- `WinLose_1755398394420.py`, lines 33–46 (given the issues list). -/
def modeB1 (issues : List Issue) : Outcome BResult :=
  match issues with
  | [] => .errorMap noIssuesMsg
  | first :: _ =>
    match pyInt (first.number.getD (PyVal.int 0)) with
    | none => .crash .valueError
    | some n => .ok ⟨n⟩

/-- `WinLose_1755398401488.py`, lines 33–46 (same core text). -/
def modeB2 (issues : List Issue) : Outcome BResult :=
  match issues with
  | [] => .errorMap noIssuesMsg
  | first :: _ =>
    match pyInt (first.number.getD (PyVal.int 0)) with
    | none => .crash .valueError
    | some n => .ok ⟨n⟩

/-- `WinLose_1755398410429.py`, lines 21–33 (same core text). -/
def modeB3 (issues : List Issue) : Outcome BResult :=
  match issues with
  | [] => .errorMap noIssuesMsg
  | first :: _ =>
    match pyInt (first.number.getD (PyVal.int 0)) with
    | none => .crash .valueError
    | some n => .ok ⟨n⟩

/-- The outer guard `if data and 'data' in data and 'list' in data['data']`:
`none` models a response without a usable `data.list`. -/
def runA1 (resp : Option (List Issue)) : Outcome AResult :=
  match resp with
  | none => .errorMap noDataMsg
  | some issues => modeA1 issues

def runA2 (resp : Option (List Issue)) : Outcome AResult :=
  match resp with
  | none => .errorMap noDataMsg
  | some issues => modeA2 issues

def runB1 (resp : Option (List Issue)) : Outcome BResult :=
  match resp with
  | none => .errorMap noDataMsg
  | some issues => modeB1 issues

def runB2 (resp : Option (List Issue)) : Outcome BResult :=
  match resp with
  | none => .errorMap noDataMsg
  | some issues => modeB2 issues

def runB3 (resp : Option (List Issue)) : Outcome BResult :=
  match resp with
  | none => .errorMap noDataMsg
  | some issues => modeB3 issues

/-- What an observer of standard output can see: the printed mapping
(result or error), or nothing from the script logic (a crash). -/
def outView {α : Type} (o : Outcome α) : Option (Except (List Char) α) :=
  match o with
  | .ok a => some (.ok a)
  | .errorMap m => some (.error m)
  | .crash _ => none

/-- Digit characters of a most-significant-first digit-value list. -/
def charsOfDigits (ds : List Nat) : List Char := ds.map digitChar

/-- Modelled from the spec: "`next_issue_number` equals
`str(max(int(r.issueNumber) for r in history) + 1)`" — the maximum of a
list of integer keys (the spec side of claim C5's equation; the scripts
instead use Python's `max(..., key=...)`, embedded as `pyMaxBy`). -/
def specMaxKey (l : List Int) : Int :=
  match l with
  | [] => 0
  | x :: xs => xs.foldl max x

/-- The successfully parsed `int(x['issueNumber'])` keys, in order. -/
def issueKeys (issues : List Issue) : List Int :=
  issues.filterMap (fun x => pyInt x.issueNumber)


/-! ### Helper lemmas about the decimal-digit primitives -/

theorem natDigitsAux_eq : ∀ (fuel n : Nat), n ≤ fuel →
    natDigitsAux fuel n = (Nat.digits 10 n).reverse := by
  intro fuel
  induction fuel with
  | zero =>
    intro n hn
    interval_cases n
    simp [natDigitsAux]
  | succ k ih =>
    intro n hn
    by_cases hz : n = 0
    · simp [natDigitsAux, hz]
    · have hdiv : n / 10 ≤ k := by
        have := Nat.div_lt_self (Nat.pos_of_ne_zero hz) (by norm_num : 1 < 10)
        omega
      rw [natDigitsAux, if_neg hz, ih _ hdiv,
        Nat.digits_def' (by norm_num : 1 < 10) (Nat.pos_of_ne_zero hz)]
      simp

theorem natToDigitList_eq (n : Nat) :
    natToDigitList n = if n = 0 then [0] else (Nat.digits 10 n).reverse := by
  by_cases hz : n = 0
  · simp [natToDigitList, hz]
  · simp [natToDigitList, hz, natDigitsAux_eq n n le_rfl]

theorem sum_digits_le (m : Nat) : (Nat.digits 10 m).sum ≤ m := by
  induction m using Nat.strong_induction_on with
  | _ m ih =>
    by_cases hz : m = 0
    · simp [hz]
    · have hpos : 0 < m := Nat.pos_of_ne_zero hz
      rw [Nat.digits_def' (by norm_num : 1 < 10) hpos]
      have hlt : m / 10 < m := Nat.div_lt_self hpos (by norm_num)
      have := ih (m / 10) hlt
      have hmod : 10 * (m / 10) + m % 10 = m := Nat.div_add_mod m 10
      simp only [List.sum_cons]
      omega

theorem digitSum_eq (n : Nat) : digitSum n = (Nat.digits 10 n).sum := by
  rw [digitSum, natToDigitList_eq]
  by_cases hz : n = 0
  · simp [hz]
  · simp [hz, List.sum_reverse]

theorem digitSum_lt (n : Nat) (h : 9 < n) : digitSum n < n := by
  rw [digitSum_eq, Nat.digits_def' (by norm_num : 1 < 10) (by omega)]
  have h1 := sum_digits_le (n / 10)
  have h2 : 10 * (n / 10) + n % 10 = n := Nat.div_add_mod n 10
  simp only [List.sum_cons]
  omega

/-- **C4.** The digit-sum reduction loop (`while total > 9: total =
sum(int(d) for d in str(total))`) terminates for every non-negative
input — `reduceTotal` is a total function satisfying the loop's
unfolding equation — and its result is always a single digit in
`[0, 9]`. -/
theorem reduceTotal_single_digit :
    ∀ n : Nat, reduceTotal n ≤ 9 ∧
      reduceTotal n = if 9 < n then reduceTotal (digitSum n) else n := by
  intro n
  induction n using Nat.strong_induction_on with
  | _ n ih =>
    constructor
    · rw [reduceTotal]
      split
      · exact (ih _ (digitSum_lt n (by assumption))).1
      · omega
    · rw [reduceTotal]
      split <;> simp_all


/-! ### Helper lemmas about characters and Python string indexing -/

theorem charVal_digitChar (d : Nat) (h : d < 10) : charVal (digitChar d) = some d := by
  interval_cases d <;> decide

theorem charIntExcept_digitChar (d : Nat) (h : d < 10) :
    charIntExcept (digitChar d) = .ok d := by
  rw [charIntExcept, charVal_digitChar d h]

theorem getD_map_digitChar (ds : List Nat) (i : Nat) (h : i < ds.length) :
    (ds.map digitChar).getD i 'x' = digitChar (ds.getD i 0) := by
  induction ds generalizing i with
  | nil => simp at h
  | cons a t ih =>
    cases i with
    | zero => rfl
    | succ j =>
      simp only [List.map_cons, List.getD_cons_succ]
      exact ih j (by simpa using h)

theorem getD_mem (ds : List Nat) (i : Nat) (h : i < ds.length) : ds.getD i 0 ∈ ds := by
  induction ds generalizing i with
  | nil => simp at h
  | cons a t ih =>
    cases i with
    | zero => simp
    | succ j =>
      simp only [List.getD_cons_succ]
      exact List.mem_cons_of_mem a (ih j (by simpa using h))

theorem pyIdx_nonneg (s : List Char) (i : Int) (h0 : 0 ≤ i) (h1 : i < s.length) :
    pyIdx s i = .ok (s.getD i.toNat 'x') := by
  rw [pyIdx, if_pos h0, if_pos h1]

theorem pyIdx_neg (s : List Char) (i : Int) (h0 : i < 0) (h1 : 0 ≤ (s.length : Int) + i) :
    pyIdx s i = .ok (s.getD ((s.length : Int) + i).toNat 'x') := by
  rw [pyIdx, if_neg (by omega), if_pos h1]

theorem pyIdx_digits (ds : List Nat) (i : Int) (j : Nat) (h0 : 0 ≤ i)
    (h1 : i < ds.length) (h2 : i.toNat = j) :
    pyIdx (charsOfDigits ds) i = .ok (digitChar (ds.getD j 0)) := by
  rw [pyIdx_nonneg _ _ h0 (by simpa [charsOfDigits] using h1), h2]
  simp only [charsOfDigits]
  rw [getD_map_digitChar ds j (by omega)]

/-- **C1.** Mode A core transform: for every non-empty digit string with
first digit `first` satisfying `1 ≤ first ≤ length`, the transform reads
`digit_at_place = digits[length - first]`, `next_digit =
digits[length - first - 1]` when `length - first ≥ 1` and `0` otherwise,
`last_digit = digits[length - 1]`, forms `total = (digit_at_place +
next_digit) * last_digit`, reduces it to the single digit
`reduceTotal total`, and outputs `"<digit> Small"` when that digit is
`≤ 4` and `"<digit> Big"` otherwise. -/
theorem modeA_core_transform (ds : List Nat) (hne : ds ≠ [])
    (hdig : ∀ d ∈ ds, d < 10)
    (h1 : 1 ≤ ds.getD 0 0) (h2 : ds.getD 0 0 ≤ ds.length) :
    digitLogic (charsOfDigits ds) =
      .ok (natChars (reduceTotal
            ((ds.getD (ds.length - ds.getD 0 0) 0 +
              (if 1 ≤ ds.length - ds.getD 0 0
               then ds.getD (ds.length - ds.getD 0 0 - 1) 0 else 0)) *
             ds.getD (ds.length - 1) 0)) ++ ' ' ::
          (if reduceTotal
            ((ds.getD (ds.length - ds.getD 0 0) 0 +
              (if 1 ≤ ds.length - ds.getD 0 0
               then ds.getD (ds.length - ds.getD 0 0 - 1) 0 else 0)) *
             ds.getD (ds.length - 1) 0) ≤ 4 then smallChars else bigChars)) := by
  have hlen : 0 < ds.length := List.length_pos.mpr hne
  set f := ds.getD 0 0 with hf
  set L := ds.length with hL
  have hf10 : f < 10 := hdig _ (getD_mem ds 0 hlen)
  have hmaplen : (charsOfDigits ds).length = L := by
    simp [charsOfDigits]
  have e0 : pyIdx (charsOfDigits ds) 0 = .ok (digitChar f) :=
    pyIdx_digits ds 0 0 le_rfl (by omega) rfl
  have epos : pyIdx (charsOfDigits ds) ((L : Int) - f) =
      .ok (digitChar (ds.getD (L - f) 0)) :=
    pyIdx_digits ds _ (L - f) (by omega) (by omega) (by omega)
  have elast : pyIdx (charsOfDigits ds) (-1) = .ok (digitChar (ds.getD (L - 1) 0)) := by
    rw [pyIdx_neg _ _ (by omega) (by rw [hmaplen]; omega), hmaplen]
    have : ((L : Int) + -1).toNat = L - 1 := by omega
    rw [this]
    simp only [charsOfDigits]
    rw [getD_map_digitChar ds (L - 1) (by omega)]
  have hplace : ds.getD (L - f) 0 < 10 := hdig _ (getD_mem ds (L - f) (by omega))
  have hlast : ds.getD (L - 1) 0 < 10 := hdig _ (getD_mem ds (L - 1) (by omega))
  by_cases hcond : 1 ≤ L - f
  · have hcondInt : (0 : Int) ≤ (L : Int) - f - 1 := by omega
    have enext : pyIdx (charsOfDigits ds) ((L : Int) - f - 1) =
        .ok (digitChar (ds.getD (L - f - 1) 0)) :=
      pyIdx_digits ds _ (L - f - 1) (by omega) (by omega) (by omega)
    have hnextd : ds.getD (L - f - 1) 0 < 10 := hdig _ (getD_mem ds (L - f - 1) (by omega))
    simp only [digitLogic, hmaplen, e0, epos, elast, enext,
      charIntExcept_digitChar f hf10, charIntExcept_digitChar _ hplace,
      charIntExcept_digitChar _ hlast, charIntExcept_digitChar _ hnextd,
      hcondInt, if_true, hcond, sizeStr, ite_true]
  · have hcondInt : ¬ ((0 : Int) ≤ (L : Int) - f - 1) := by omega
    simp only [digitLogic, hmaplen, e0, epos, elast,
      charIntExcept_digitChar f hf10, charIntExcept_digitChar _ hplace,
      charIntExcept_digitChar _ hlast,
      hcondInt, if_false, hcond, sizeStr, ite_false]


/-- **C9.** Implicit edge case of Mode A: when the first digit exceeds
the string length (`first > length`) but `length - first ≥ -length`,
the index access does not fail — Python's negative indexing reads
`digit_at_place` at index `2*length - first` counted from the start —
and `next_digit` is always `0`, because the guard `pos_index - 1 >= 0`
is false for every negative `pos_index` even when a digit exists to its
left. -/
theorem modeA_negative_index (ds : List Nat)
    (hdig : ∀ d ∈ ds, d < 10)
    (h1 : ds.length < ds.getD 0 0) (h2 : ds.getD 0 0 ≤ 2 * ds.length) :
    digitLogic (charsOfDigits ds) =
      .ok (natChars (reduceTotal
            ((ds.getD (2 * ds.length - ds.getD 0 0) 0 + 0) *
             ds.getD (ds.length - 1) 0)) ++ ' ' ::
          (if reduceTotal
            ((ds.getD (2 * ds.length - ds.getD 0 0) 0 + 0) *
             ds.getD (ds.length - 1) 0) ≤ 4 then smallChars else bigChars)) := by
  set f := ds.getD 0 0 with hf
  set L := ds.length with hL
  have hlen : 0 < L := by omega
  have hf10 : f < 10 := hdig _ (getD_mem ds 0 hlen)
  have hmaplen : (charsOfDigits ds).length = L := by
    simp [charsOfDigits]
  have e0 : pyIdx (charsOfDigits ds) 0 = .ok (digitChar f) :=
    pyIdx_digits ds 0 0 le_rfl (by omega) rfl
  have epos : pyIdx (charsOfDigits ds) ((L : Int) - f) =
      .ok (digitChar (ds.getD (2 * L - f) 0)) := by
    rw [pyIdx_neg _ _ (by omega) (by rw [hmaplen]; omega), hmaplen]
    have : ((L : Int) + ((L : Int) - f)).toNat = 2 * L - f := by omega
    rw [this]
    simp only [charsOfDigits]
    rw [getD_map_digitChar ds (2 * L - f) (by omega)]
  have elast : pyIdx (charsOfDigits ds) (-1) = .ok (digitChar (ds.getD (L - 1) 0)) := by
    rw [pyIdx_neg _ _ (by omega) (by rw [hmaplen]; omega), hmaplen]
    have : ((L : Int) + -1).toNat = L - 1 := by omega
    rw [this]
    simp only [charsOfDigits]
    rw [getD_map_digitChar ds (L - 1) (by omega)]
  have hplace : ds.getD (2 * L - f) 0 < 10 := hdig _ (getD_mem ds (2 * L - f) (by omega))
  have hlast : ds.getD (L - 1) 0 < 10 := hdig _ (getD_mem ds (L - 1) (by omega))
  have hcondInt : ¬ ((0 : Int) ≤ (L : Int) - f - 1) := by omega
  simp only [digitLogic, hmaplen, e0, epos, elast,
    charIntExcept_digitChar f hf10, charIntExcept_digitChar _ hplace,
    charIntExcept_digitChar _ hlast,
    hcondInt, if_false, sizeStr]


/-! ### Helper lemmas for the issue-number maximum -/

theorem le_foldl_max (l : List Int) (a : Int) : a ≤ l.foldl max a := by
  induction l generalizing a with
  | nil => simp
  | cons b t ih => exact le_trans (le_max_left a b) (ih (max a b))

theorem foldl_max_le_of_mem (l : List Int) (a x : Int) (hx : x ∈ l) :
    x ≤ l.foldl max a := by
  induction l generalizing a with
  | nil => simp at hx
  | cons b t ih =>
    rcases List.mem_cons.mp hx with rfl | hx
    · exact le_trans (le_max_right a x) (le_foldl_max t (max a x))
    · exact ih (max a b) hx

theorem foldl_max_mem (l : List Int) (a : Int) :
    l.foldl max a = a ∨ l.foldl max a ∈ l := by
  induction l generalizing a with
  | nil => simp
  | cons b t ih =>
    rcases ih (max a b) with h | h
    · rcases max_choice a b with hm | hm
      · exact Or.inl (by rw [List.foldl_cons, h, hm])
      · exact Or.inr (by rw [List.foldl_cons, h, hm]; exact List.mem_cons_self b t)
    · exact Or.inr (List.mem_cons_of_mem b h)

theorem specMaxKey_mem (l : List Int) (h : l ≠ []) : specMaxKey l ∈ l := by
  match l with
  | x :: xs =>
    rcases foldl_max_mem xs x with h1 | h1
    · exact List.mem_cons.mpr (Or.inl (by simpa [specMaxKey] using h1))
    · exact List.mem_cons_of_mem x (by simpa [specMaxKey] using h1)

theorem le_specMaxKey (l : List Int) (x : Int) (hx : x ∈ l) : x ≤ specMaxKey l := by
  match l with
  | y :: ys =>
    rcases List.mem_cons.mp hx with rfl | hx
    · simpa [specMaxKey] using le_foldl_max ys x
    · simpa [specMaxKey] using foldl_max_le_of_mem ys y x hx

theorem specMaxKey_perm (l l' : List Int) (hp : l.Perm l') (hne : l ≠ []) :
    specMaxKey l = specMaxKey l' := by
  have hne' : l' ≠ [] := by
    intro h; rw [h] at hp; exact hne (List.Perm.eq_nil hp)
  exact le_antisymm
    (le_specMaxKey l' _ (hp.mem_iff.mp (specMaxKey_mem l hne)))
    (le_specMaxKey l _ (hp.mem_iff.mpr (specMaxKey_mem l' hne')))

theorem pyMaxByAux_spec (xs : List Issue) : ∀ (best : Issue) (bkey : Int),
    pyInt best.issueNumber = some bkey →
    (∀ x ∈ xs, (pyInt x.issueNumber).isSome) →
    ∃ r, pyMaxByAux best bkey xs = .ok r ∧
      pyInt r.issueNumber = some ((issueKeys xs).foldl max bkey) := by
  induction xs with
  | nil =>
    intro best bkey hb _
    exact ⟨best, rfl, by simpa [issueKeys] using hb⟩
  | cons y ys ih =>
    intro best bkey hb hall
    obtain ⟨ky, hky⟩ := Option.isSome_iff_exists.mp (hall y (List.mem_cons_self _ _))
    have hall' : ∀ x ∈ ys, (pyInt x.issueNumber).isSome :=
      fun x hx => hall x (List.mem_cons_of_mem y hx)
    have hkeys : issueKeys (y :: ys) = ky :: issueKeys ys := by
      simp [issueKeys, List.filterMap_cons, hky]
    by_cases hlt : bkey < ky
    · obtain ⟨r, hr, hrk⟩ := ih y ky hky hall'
      refine ⟨r, ?_, ?_⟩
      · simp only [pyMaxByAux, hky, if_pos hlt]; exact hr
      · rw [hkeys, List.foldl_cons, max_eq_right (le_of_lt hlt)]; exact hrk
    · obtain ⟨r, hr, hrk⟩ := ih best bkey hb hall'
      refine ⟨r, ?_, ?_⟩
      · simp only [pyMaxByAux, hky, if_neg hlt]; exact hr
      · rw [hkeys, List.foldl_cons, max_eq_left (by omega)]; exact hrk

theorem pyMaxBy_spec (issues : List Issue) (hne : issues ≠ [])
    (hall : ∀ x ∈ issues, (pyInt x.issueNumber).isSome) :
    ∃ r, pyMaxBy issues = .ok r ∧
      pyInt r.issueNumber = some (specMaxKey (issueKeys issues)) := by
  match issues with
  | x :: xs =>
    obtain ⟨kx, hkx⟩ := Option.isSome_iff_exists.mp (hall x (List.mem_cons_self _ _))
    have hall' : ∀ y ∈ xs, (pyInt y.issueNumber).isSome :=
      fun y hy => hall y (List.mem_cons_of_mem x hy)
    obtain ⟨r, hr, hrk⟩ := pyMaxByAux_spec xs x kx hkx hall'
    refine ⟨r, ?_, ?_⟩
    · simp only [pyMaxBy, hkx]; exact hr
    · have hkeys : issueKeys (x :: xs) = kx :: issueKeys xs := by
        simp [issueKeys, List.filterMap_cons, hkx]
      rw [hkeys]; exact hrk

/-- **C5.** For every non-empty DrawHistory with integer-parseable
`issueNumber` fields, `next_issue_number` equals
`str(max(int(r.issueNumber) for r in history) + 1)` — and the result is
invariant under reordering of the records. -/
theorem nextIssue_eq_max_plus_one (issues : List Issue) (hne : issues ≠ [])
    (hall : ∀ x ∈ issues, (pyInt x.issueNumber).isSome) :
    nextIssueStr issues = .ok (pyStrInt (specMaxKey (issueKeys issues) + 1)) ∧
    ∀ issues', issues.Perm issues' → nextIssueStr issues = nextIssueStr issues' := by
  have main : ∀ (l : List Issue), l ≠ [] → (∀ x ∈ l, (pyInt x.issueNumber).isSome) →
      nextIssueStr l = .ok (pyStrInt (specMaxKey (issueKeys l) + 1)) := by
    intro l hlne hlall
    obtain ⟨r, hr, hrk⟩ := pyMaxBy_spec l hlne hlall
    simp only [nextIssueStr, hr, hrk]
  refine ⟨main issues hne hall, ?_⟩
  intro issues' hp
  have hne' : issues' ≠ [] := by
    intro h; rw [h] at hp; exact hne (List.Perm.eq_nil hp)
  have hall' : ∀ x ∈ issues', (pyInt x.issueNumber).isSome :=
    fun x hx => hall x (hp.mem_iff.mpr hx)
  rw [main issues hne hall, main issues' hne' hall']
  have hkp : (issueKeys issues).Perm (issueKeys issues') := hp.filterMap _
  have hkne : issueKeys issues ≠ [] := by
    match issues with
    | x :: xs =>
      obtain ⟨kx, hkx⟩ := Option.isSome_iff_exists.mp (hall x (List.mem_cons_self _ _))
      simp [issueKeys, List.filterMap_cons, hkx]
  rw [specMaxKey_perm _ _ hkp hkne]


/-! ### Helper lemmas for the all_numbers round trip -/

theorem foldl_base_shift (l : List Nat) : ∀ a : Nat,
    l.foldl (fun x d => 10 * x + d) a = a * 10 ^ l.length + valMSB l := by
  induction l with
  | nil => intro a; simp [valMSB]
  | cons d t ih =>
    intro a
    rw [List.foldl_cons]
    rw [ih (10 * a + d)]
    have h2 : valMSB (d :: t) = d * 10 ^ t.length + valMSB t := by
      rw [valMSB, List.foldl_cons]
      simpa using ih d
    rw [h2, List.length_cons]
    ring

theorem valMSB_eq_ofDigits (l : List Nat) : valMSB l = Nat.ofDigits 10 l.reverse := by
  induction l with
  | nil => simp [valMSB, Nat.ofDigits]
  | cons d t ih =>
    have h1 : valMSB (d :: t) = d * 10 ^ t.length + valMSB t := by
      rw [valMSB, List.foldl_cons]
      simpa using foldl_base_shift t d
    rw [h1, List.reverse_cons, Nat.ofDigits_append, ih]
    simp [Nat.ofDigits]
    ring

theorem valMSB_replicate_zero_append (k : Nat) (t : List Nat) :
    valMSB (List.replicate k 0 ++ t) = valMSB t := by
  induction k with
  | zero => simp
  | succ m ih =>
    rw [List.replicate_succ, List.cons_append, valMSB, List.foldl_cons]
    simpa [valMSB] using ih

theorem dropWhile_head_false {α : Type} (p : α → Bool) :
    ∀ (l : List α) (c : α) (rest : List α), l.dropWhile p = c :: rest → p c = false := by
  intro l
  induction l with
  | nil => intro c rest h; simp [List.dropWhile] at h
  | cons a t ih =>
    intro c rest h
    rw [List.dropWhile_cons] at h
    by_cases hp : p a = true
    · exact ih c rest (by simpa [hp] using h)
    · have hpa : p a = false := by simpa using hp
      rw [hpa] at h
      simp at h
      obtain ⟨rfl, -⟩ := h
      exact hpa

theorem roundtrip_digits (ds : List Nat) (hne : ds ≠ []) (hdig : ∀ d ∈ ds, d < 10) :
    List.replicate (ds.length - (natToDigitList (valMSB ds)).length) 0 ++
      natToDigitList (valMSB ds) = ds := by
  have hsplit : ds.takeWhile (fun d => d == 0) ++ ds.dropWhile (fun d => d == 0) = ds :=
    List.takeWhile_append_dropWhile _ _
  have hz : ds.takeWhile (fun d => d == 0) =
      List.replicate (ds.takeWhile (fun d => d == 0)).length 0 :=
    List.eq_replicate_of_mem (fun b hb => by simpa using List.mem_takeWhile_imp hb)
  have hvz : valMSB ds = valMSB (ds.dropWhile (fun d => d == 0)) := by
    conv_lhs => rw [← hsplit, hz]
    exact valMSB_replicate_zero_append _ _
  have hlenz : ds.length = (ds.takeWhile (fun d => d == 0)).length +
      (ds.dropWhile (fun d => d == 0)).length := by
    conv_lhs => rw [← hsplit]
    exact List.length_append _ _
  rcases htt : ds.dropWhile (fun d => d == 0) with _ | ⟨c, rest⟩
  · -- every digit of ds is 0
    have hall0 : ∀ d ∈ ds, d = 0 := by
      intro d hd
      simpa using List.dropWhile_eq_nil_iff.mp htt d hd
    have hds : ds = List.replicate ds.length 0 := List.eq_replicate_of_mem hall0
    have hv0 : valMSB ds = 0 := by rw [hvz, htt]; rfl
    have key : ∀ n : Nat, 1 ≤ n →
        List.replicate (n - 1) 0 ++ [0] = List.replicate n (0 : Nat) := by
      intro n hn
      obtain ⟨k, rfl⟩ : ∃ k, n = k + 1 := ⟨n - 1, by omega⟩
      simp [List.replicate_succ' k (0 : Nat)]
    rw [hv0]
    show List.replicate (ds.length - 1) 0 ++ [0] = ds
    rw [key ds.length (by have := List.length_pos.mpr hne; omega)]
    exact hds.symm
  · -- ds = zeros ++ c :: rest with c ≠ 0
    have hc0 : c ≠ 0 := by
      have := dropWhile_head_false (fun d => d == 0) ds c rest htt
      simpa using this
    rw [htt] at hsplit hvz hlenz
    have hsub : ∀ d ∈ (c :: rest), d ∈ ds := by
      intro d hd
      rw [← hsplit]
      exact List.mem_append_right _ hd
    have hdigt : ∀ d ∈ (c :: rest).reverse, d < 10 := fun d hd =>
      hdig d (hsub d (List.mem_reverse.mp hd))
    have hlast : ∀ h : (c :: rest).reverse ≠ [],
        ((c :: rest).reverse).getLast h ≠ 0 := by
      intro h
      rw [List.getLast_reverse]
      exact hc0
    have hdigits : Nat.digits 10 (valMSB ds) = (c :: rest).reverse := by
      rw [hvz, valMSB_eq_ofDigits]
      exact Nat.digits_ofDigits 10 (by norm_num) _ hdigt hlast
    have hvne : valMSB ds ≠ 0 := by
      intro h0
      rw [h0] at hdigits
      simp at hdigits
    have hnat : natToDigitList (valMSB ds) = c :: rest := by
      rw [natToDigitList_eq, if_neg hvne, hdigits, List.reverse_reverse]
    rw [hnat]
    have hlen2 : ds.length - (c :: rest).length =
        (ds.takeWhile (fun d => d == 0)).length := by
      rw [hlenz]
      simp
    rw [hlen2, ← hz]
    exact hsplit


theorem digitChar_of_digit (c : Char) (h : isDigitChar c = true) :
    digitChar (c.toNat - 48) = c := by
  have hb : 48 ≤ c.toNat ∧ c.toNat ≤ 57 := by
    simpa [isDigitChar] using h
  rw [digitChar]
  have h48 : 48 + (c.toNat - 48) = c.toNat := by omega
  rw [h48, Char.ofNat_toNat]

theorem parseNatChars_all_digits (cs : List Char) (hne : cs ≠ [])
    (hall : cs.all isDigitChar = true) : parseNatChars cs = some (digitsVal cs) := by
  rw [parseNatChars, if_pos ⟨hne, hall⟩]

theorem parseIntChars_all_digits (c : Char) (cs : List Char)
    (hall : (c :: cs).all isDigitChar = true) :
    parseIntChars (c :: cs) = some ((digitsVal (c :: cs) : Nat) : Int) := by
  have hc : isDigitChar c = true := by
    rw [List.all_cons] at hall
    exact (Bool.and_eq_true _ _).mp hall |>.1
  have hcm : c ≠ '-' := by
    intro h
    rw [h] at hc
    exact absurd hc (by decide)
  have hcp : c ≠ '+' := by
    intro h
    rw [h] at hc
    exact absurd hc (by decide)
  rw [parseIntChars, if_neg hcm, if_neg hcp,
    parseNatChars_all_digits _ (by simp) hall]
  rfl

theorem digitsVal_eq_valMSB (cs : List Char) :
    digitsVal cs = valMSB (cs.map (fun c => c.toNat - 48)) := by
  rw [valMSB, List.foldl_map]
  rfl

/-- **C6.** Round trip: for every non-empty string of ASCII decimal
digit characters, parsing it as a base-10 integer (Mode A's
`all_numbers` field, `int(all_numbers_str)`) and converting back to a
decimal string left-padded with `'0'` to the original length yields
exactly the original string. -/
theorem all_numbers_roundtrip (ds : List Char) (N : Int) (hne : ds ≠ [])
    (hdig : ∀ c ∈ ds, isDigitChar c = true)
    (hparse : parseIntChars ds = some N) :
    List.replicate (ds.length - (pyStrInt N).length) '0' ++ pyStrInt N = ds := by
  match ds, hne, hdig, hparse with
  | c :: cs, _, hdig, hparse =>
    have hall : (c :: cs).all isDigitChar = true :=
      List.all_eq_true.mpr (fun x hx => hdig x hx)
    have hN : N = ((digitsVal (c :: cs) : Nat) : Int) := by
      have hp := parseIntChars_all_digits c cs hall
      rw [hparse] at hp
      exact Option.some.inj hp
    have hNnn : ¬ N < 0 := by rw [hN]; omega
    have hNtoNat : N.toNat = digitsVal (c :: cs) := by rw [hN]; omega
    have hstr : pyStrInt N = natChars (digitsVal (c :: cs)) := by
      rw [pyStrInt, if_neg hNnn, hNtoNat]
    set dsN := (c :: cs).map (fun ch => ch.toNat - 48) with hdsNdef
    have hvd : digitsVal (c :: cs) = valMSB dsN := digitsVal_eq_valMSB _
    have hdsN_ne : dsN ≠ [] := by simp [hdsNdef]
    have hdsN_dig : ∀ d ∈ dsN, d < 10 := by
      intro d hd
      obtain ⟨ch, hch, rfl⟩ := List.mem_map.mp hd
      have hb : 48 ≤ ch.toNat ∧ ch.toNat ≤ 57 := by
        simpa [isDigitChar] using hdig ch hch
      omega
    have hrt := roundtrip_digits dsN hdsN_ne hdsN_dig
    have hmap := congrArg (List.map digitChar) hrt
    rw [List.map_append, List.map_replicate] at hmap
    have h0 : digitChar 0 = '0' := by decide
    rw [h0] at hmap
    have hback : dsN.map digitChar = c :: cs := by
      rw [hdsNdef, List.map_map]
      have hcongr : ∀ x ∈ (c :: cs), (digitChar ∘ fun ch => ch.toNat - 48) x = x :=
        fun x hx => digitChar_of_digit x (hdig x hx)
      rw [List.map_congr_left hcongr]
      simp
    have hlens : dsN.length = (c :: cs).length := List.length_map _ _
    have hpy : pyStrInt N = List.map digitChar (natToDigitList (valMSB dsN)) := by
      rw [hstr, hvd]
      rfl
    rw [hpy, List.length_map, ← hlens, hmap]
    exact hback


/-- **C2.** (code bug) The spec requires a defined `InputError` when the
first digit is `0` (so `position == length`); the code instead performs
an out-of-range access: on digit string `"05"` the transform raises
`IndexError`, and both full Mode A scripts crash on a history whose
concatenated digits are `"05"`. -/
theorem firstDigitZero_crash :
    digitLogic ['0', '5'] = .error .indexError ∧
    runA1 (some [⟨some (.str ['0']), .str ['1']⟩, ⟨some (.str ['5']), .str ['2']⟩]) =
      .crash .indexError ∧
    runA2 (some [⟨some (.str ['0']), .str ['1']⟩, ⟨some (.str ['5']), .str ['2']⟩]) =
      .crash .indexError := by
  decide

/-- **C3.** (counterexample) On an empty `data.list`, Mode A does not
produce an error mapping: script 1 crashes with `ValueError` (from
`max()` on an empty sequence) and script 2 with `IndexError` (from
`all_numbers_str[0]` on the empty string). -/
theorem emptyHistory_modeA_not_error_mapping :
    runA1 (some []) = .crash .valueError ∧ runA2 (some []) = .crash .indexError := by
  decide

/-- **C3.** (amended) On an empty `data.list`, the three Mode B scripts
print the explicit error mapping `{"error": "No issues available."}`,
while the two Mode A scripts raise unhandled exceptions (`ValueError`
from `max()` in script 1, `IndexError` from `all_numbers_str[0]` in
script 2) instead of producing an error mapping. -/
theorem emptyHistory_behavior :
    runB1 (some []) = .errorMap noIssuesMsg ∧
    runB2 (some []) = .errorMap noIssuesMsg ∧
    runB3 (some []) = .errorMap noIssuesMsg ∧
    runA1 (some []) = .crash .valueError ∧
    runA2 (some []) = .crash .indexError := by
  decide

/-- **C7.** Mode B outputs `{"number": n}` where `n` is the integer
coercion of the first record's `number` field (defaulting to `0` when
the field is absent, covered by the `Option.getD`). -/
theorem modeB_passthrough (r : Issue) (rest : List Issue) (n : Int)
    (h : pyInt (r.number.getD (PyVal.int 0)) = some n) :
    modeB1 (r :: rest) = .ok ⟨n⟩ := by
  simp only [modeB1, h]

theorem modeB_passthrough_witness :
    modeB1 [⟨some (.str ['7']), .str ['1', '0', '0']⟩] = .ok ⟨7⟩ ∧
    modeB1 [⟨none, .str ['1']⟩] = .ok ⟨0⟩ :=
  ⟨modeB_passthrough _ [] 7 (by decide), modeB_passthrough _ [] 0 (by decide)⟩

/-- **C8.** (counterexample) A malformed `number` field does not produce
an `{"error": ...}` mapping: both Mode B and Mode A crash with an
unhandled `ValueError` on a record whose `number` is the string "a". -/
theorem malformed_number_not_error_mapping :
    modeB1 [⟨some (.str ['a']), .str ['1']⟩] = .crash .valueError ∧
    modeA1 [⟨some (.str ['a']), .str ['1']⟩] = .crash .valueError := by
  decide

/-- **C8.** (amended) When a record's `number` field is malformed the
core raises an unhandled `ValueError` (a crash) rather than surfacing an
error mapping: Mode B crashes whenever the first record's number fails
integer coercion, and Mode A crashes (with some unhandled exception)
whenever the concatenated digit string contains a non-digit character. -/
theorem malformed_number_crash :
    (∀ (r : Issue) (rest : List Issue),
        pyInt (r.number.getD (PyVal.int 0)) = none →
        modeB1 (r :: rest) = .crash .valueError) ∧
    (∀ issues : List Issue,
        (allNumbersStr issues).all isDigitChar = false →
        ∃ e, modeA1 issues = .crash e) := by
  constructor
  · intro r rest h
    simp only [modeB1, h]
  · intro issues hbad
    rcases h1 : nextIssueStr issues with e1 | v1
    · exact ⟨e1, by simp only [modeA1, h1]⟩
    · rcases hs : allNumbersStr issues with _ | ⟨c, rest⟩
      · rw [hs] at hbad
        simp at hbad
      · have hball : (c :: rest).all isDigitChar = false := by
          rw [hs] at hbad
          exact hbad
        by_cases hc : isDigitChar c = true
        · -- first character is a digit, so int(all_numbers_str) fails
          have hcm : c ≠ '-' := by
            intro hh; rw [hh] at hc; exact absurd hc (by decide)
          have hcp : c ≠ '+' := by
            intro hh; rw [hh] at hc; exact absurd hc (by decide)
          have hp : parseIntChars (c :: rest) = none := by
            rw [parseIntChars, if_neg hcm, if_neg hcp, parseNatChars,
              if_neg (fun hcontra => by rw [hball] at hcontra; simp at hcontra)]
            simp
          rcases h2 : digitLogic (allNumbersStr issues) with e2 | v2
          · exact ⟨e2, by simp only [modeA1, h1, h2]⟩
          · rw [hs] at h2
            exact ⟨.valueError, by simp only [modeA1, h1, hs, h2, hp]⟩
        · -- first character is not a digit, so int(all_numbers_str[0]) fails
          have e0 : pyIdx (c :: rest) 0 = .ok c := by
            rw [pyIdx_nonneg _ _ le_rfl (by simp)]
            rfl
          have hcv : charVal c = none := by
            rw [charVal, if_neg hc]
          have h2 : digitLogic (c :: rest) = .error .valueError := by
            simp only [digitLogic, e0, charIntExcept, hcv]
          exact ⟨.valueError, by simp only [modeA1, h1, hs, h2]⟩

theorem malformed_number_crash_witness :
    modeB1 [⟨some (.str ['a']), .str ['1']⟩] = .crash .valueError ∧
    (∃ e, modeA1 [⟨some (.str ['a']), .str ['1']⟩] = .crash e) :=
  ⟨malformed_number_crash.1 _ [] (by decide), malformed_number_crash.2 _ (by decide)⟩

/-- **C10.** Duplicate-script equivalence: on every parsed response the
two Mode A scripts produce the same observable output mapping (they can
differ only in which unhandled exception ends a crashing run), and the
three Mode B scripts are fully identical in behaviour. -/
theorem duplicate_scripts_equiv :
    ∀ resp : Option (List Issue),
      outView (runA1 resp) = outView (runA2 resp) ∧
      runB1 resp = runB2 resp ∧ runB2 resp = runB3 resp := by
  intro resp
  refine ⟨?_, rfl, rfl⟩
  cases resp with
  | none => rfl
  | some issues =>
    show outView (modeA1 issues) = outView (modeA2 issues)
    unfold modeA1 modeA2
    rcases h1 : nextIssueStr issues with e1 | v1 <;>
      rcases h2 : digitLogic (allNumbersStr issues) with e2 | v2 <;>
        rcases h3 : parseIntChars (allNumbersStr issues) with _ | v3 <;>
          simp [outView]


/-- Witness for C1 at the spec's example: digits `"4917"` give
`total = (4+0)*7 = 28`, reduced `28 → 10 → 1`, and output `"1 Small"`. -/
theorem modeA_core_transform_witness :
    digitLogic (charsOfDigits [4, 9, 1, 7]) = .ok ('1' :: ' ' :: smallChars) := by
  have h28 : reduceTotal 28 = 1 := by
    rw [reduceTotal]
    norm_num
    rw [show digitSum 28 = 10 from by decide]
    rw [reduceTotal]
    norm_num
    rw [show digitSum 10 = 1 from by decide]
    rw [reduceTotal]
    norm_num
  have h := modeA_core_transform [4, 9, 1, 7] (by decide) (by decide) (by decide) (by decide)
  rw [show digitLogic (charsOfDigits [4, 9, 1, 7]) =
      .ok (natChars (reduceTotal 28) ++ ' ' ::
        (if reduceTotal 28 ≤ 4 then smallChars else bigChars)) from h]
  rw [h28]
  decide

/-- Witness for C4 at a concrete input. -/
theorem reduceTotal_single_digit_witness :
    reduceTotal 28 ≤ 9 ∧ reduceTotal 28 = if 9 < 28 then reduceTotal (digitSum 28) else 28 :=
  reduceTotal_single_digit 28

/-- Witness for C5 at a concrete two-record history and its reversal. -/
theorem nextIssue_eq_max_plus_one_witness :
    nextIssueStr [⟨some (.str ['1']), .str ['5']⟩, ⟨some (.str ['2']), .str ['9']⟩] =
      .ok (pyStrInt (specMaxKey (issueKeys
        [⟨some (.str ['1']), .str ['5']⟩, ⟨some (.str ['2']), .str ['9']⟩]) + 1)) ∧
    nextIssueStr [⟨some (.str ['1']), .str ['5']⟩, ⟨some (.str ['2']), .str ['9']⟩] =
      nextIssueStr [⟨some (.str ['2']), .str ['9']⟩, ⟨some (.str ['1']), .str ['5']⟩] :=
  ⟨(nextIssue_eq_max_plus_one _ (by decide) (by decide)).1,
   (nextIssue_eq_max_plus_one _ (by decide) (by decide)).2 _ (by decide)⟩

/-- Witness for C6 at `"007"`: `int("007") = 7` and padding `"7"` back
to three characters restores `"007"`. -/
theorem all_numbers_roundtrip_witness :
    List.replicate ((['0', '0', '7'] : List Char).length - (pyStrInt 7).length) '0' ++
      pyStrInt 7 = ['0', '0', '7'] :=
  all_numbers_roundtrip ['0', '0', '7'] 7 (by decide) (by decide) (by decide)

/-- Witness for C9 at digits `"31"`: `first = 3 > length = 2`,
`digit_at_place` is read at index `2*2 - 3 = 1` (value `1`),
`next_digit = 0`, `total = (1+0)*1 = 1`, output `"1 Small"`. -/
theorem modeA_negative_index_witness :
    digitLogic (charsOfDigits [3, 1]) = .ok ('1' :: ' ' :: smallChars) := by
  have hred : reduceTotal 1 = 1 := by
    rw [reduceTotal]
    norm_num
  have h := modeA_negative_index [3, 1] (by decide) (by decide) (by decide)
  rw [show digitLogic (charsOfDigits [3, 1]) =
      .ok (natChars (reduceTotal 1) ++ ' ' ::
        (if reduceTotal 1 ≤ 4 then smallChars else bigChars)) from h]
  rw [hred]
  decide

/-- Witness for C10 at a concrete parsed response. -/
theorem duplicate_scripts_equiv_witness :
    outView (runA1 (some [])) = outView (runA2 (some [])) ∧
    runB1 (some []) = runB2 (some []) :=
  ⟨(duplicate_scripts_equiv (some [])).1, (duplicate_scripts_equiv (some [])).2.1⟩

end DataScripts
